import Mathlib

/-!
Verification of the command-extraction routine of the CL-AI repository.

The repository ships two revisions of the extractor:
* `CommandAI.extract_command` in `cmd_ai.py` (lines 223-302), and
* `CLAI.extract_command` in `build/lib/cmd_ai.py` (lines 375-417).

Both are embedded below as executable functions on `List Char` (a Python
`str` is modelled as its list of characters; the inputs of interest are
ASCII, for which Python's `str.lower`, `str.strip` and the regex class
`\s` coincide with the ASCII behaviour modelled here).  Python operations
that can raise (list indexing such as `bash_matches[0]`, guarded in the
source by emptiness tests) are modelled with `Option`; totality of the
routine is then the theorem that the result is always `some`.
-/

/-- Python's whitespace class for `str.strip` / regex `\s` on ASCII text:
space, tab, newline, carriage return, vertical tab, form feed. -/
def isSpc (c : Char) : Bool :=
  c == ' ' || c == '\t' || c == '\n' || c == '\r' || c == '\x0b' || c == '\x0c'

/-- Python `str.strip()`: drop leading and trailing whitespace. -/
def stripL (l : List Char) : List Char :=
  ((l.dropWhile isSpc).reverse.dropWhile isSpc).reverse

/-- Python `str.lstrip()`: drop leading whitespace only. -/
def lstripL (l : List Char) : List Char :=
  l.dropWhile isSpc

/-- The fence delimiter `` ``` `` of a markdown code block. -/
def fenceL : List Char := ['`', '`', '`']

/-- The literal part `` ```bash `` of the bash-block regex. -/
def bashOpenL : List Char := ['`', '`', '`', 'b', 'a', 's', 'h']

/-- Python's substring test `pat in s`: `pat` occurs contiguously in the
list.  (For `pat = []` this is always true, matching Python.) -/
def containsL (pat : List Char) : List Char → Bool
  | [] => pat.isEmpty
  | c :: cs => pat.isPrefixOf (c :: cs) || containsL pat cs

/-- Split a list at the first occurrence of the fence `` ``` ``:
returns the text before it and the text after it, or `none` when no
fence occurs. -/
def splitFence : List Char → Option (List Char × List Char)
  | [] => none
  | c :: cs =>
    if fenceL.isPrefixOf (c :: cs) then some ([], (c :: cs).drop 3)
    else
      match splitFence cs with
      | some (p, q) => some (c :: p, q)
      | none => none

/-- Matching of the regex tail `\s*(.*?)\s*` + fence (flags `re.DOTALL`)
against the text following the opening literal of a fenced-block pattern:
the first `\s*` is greedy (maximal whitespace run), the lazy group then
runs to the first closing fence reachable through the trailing `\s*`.
The value returned is the text strictly before the first fence of the
whitespace-stripped remainder; the group's content stripped of whitespace
(which is what both Python revisions return, via `.strip()`) equals
`stripL` of this value. -/
def innerAfterOpen (l : List Char) : Option (List Char) :=
  match splitFence (l.dropWhile isSpc) with
  | some (p, _) => some p
  | none => none

/-- First match of `re` pattern `` ```bash\s*(.*?)\s*``` `` (`re.DOTALL`,
case-sensitive), as used by `CommandAI.extract_command` (`cmd_ai.py`
line 228): leftmost position starting with the literal `` ```bash `` and
followed (beyond the literal) by a closing fence. -/
def reFindBash : List Char → Option (List Char)
  | [] => none
  | c :: cs =>
    if bashOpenL.isPrefixOf (c :: cs) then
      match innerAfterOpen ((c :: cs).drop 7) with
      | some p => some p
      | none => reFindBash cs
    else reFindBash cs

/-- Case-insensitive test for the opening literal `` ```bash `` under
`re.IGNORECASE` (`build/lib/cmd_ai.py` line 386): the backticks are
matched exactly, each letter in either case. -/
def ciBashOpen : List Char → Bool
  | '`' :: '`' :: '`' :: b :: a :: s :: h :: _ =>
    (b == 'b' || b == 'B') && (a == 'a' || a == 'A') &&
    (s == 's' || s == 'S') && (h == 'h' || h == 'H')
  | _ => false

/-- First match of `` ```bash\s*(.*?)\s*``` `` with `re.DOTALL` and
`re.IGNORECASE`, as used by `CLAI.extract_command`. -/
def reFindBashCI : List Char → Option (List Char)
  | [] => none
  | c :: cs =>
    if ciBashOpen (c :: cs) then
      match innerAfterOpen ((c :: cs).drop 7) with
      | some p => some p
      | none => reFindBashCI cs
    else reFindBashCI cs

/-- First match of the generic pattern `` ```\s*(.*?)\s*``` ``
(`re.DOTALL`), used by both revisions when no bash-tagged block
matches. -/
def reFindGeneric : List Char → Option (List Char)
  | [] => none
  | c :: cs =>
    if fenceL.isPrefixOf (c :: cs) then
      match innerAfterOpen ((c :: cs).drop 3) with
      | some p => some p
      | none => reFindGeneric cs
    else reFindGeneric cs

/-- Python `response.split('\n')`. -/
def splitNl : List Char → List (List Char)
  | [] => [[]]
  | c :: cs =>
    if c == '\n' then [] :: splitNl cs
    else
      match splitNl cs with
      | [] => [[c]]
      | l :: ls => (c :: l) :: ls

/-- Does the line start with the given character? (Python
`line.startswith('$')` / `line.startswith('#')`.) -/
def startsWithChar (c : Char) : List Char → Bool
  | [] => false
  | d :: _ => d == c

/-- `explan_prefixes` of `cmd_ai.py` line 256. -/
def explanPrefixes : List String :=
  ["to ", "this ", "you ", "the ", "here", "use ", "if ", "note:",
   "note that", "it "]

/-- `command_indicators` of `cmd_ai.py` line 278. -/
def commandIndicators : List String :=
  [" | ", ";", ">", "<", "&&", "||"]

/-- `command_prefixes` of `cmd_ai.py` lines 279-282. -/
def commandPrefixes : List String :=
  ["$", "sudo", "./", "apt", "git", "docker", "kubectl", "find", "grep",
   "ls", "cat", "cd", "mkdir", "rm", "cp", "mv", "df", "du", "ps"]

/-- The explanation classifier of `cmd_ai.py` lines 254-272, applied to an
already-stripped non-empty line: explanatory lead-in on the lowercased
line, markdown heading, an over-long line without command-joining
operators, or too many periods or commas outside a find/grep command. -/
def isExplanationLine (line : List Char) : Bool :=
  let low := line.map Char.toLower
  (explanPrefixes.any (fun p => p.data.isPrefixOf low))
  || startsWithChar '#' line
  || (decide (line.length > 120) && line.contains ' '
      && !(containsL ("&&").data line || containsL ("||").data line))
  || (decide (line.count '.' > 2 || line.count ',' > 2)
      && !(containsL ("find ").data line || containsL ("grep ").data line))

/-- The strong-command-signal classifier of `cmd_ai.py` lines 277-284:
contains a shell operator substring or starts with a known command
token. -/
def isCommandLine (line : List Char) : Bool :=
  (commandIndicators.any (fun i => containsL i.data line))
  || (commandPrefixes.any (fun p => p.data.isPrefixOf line))

/-- `cmd_ai.py` line 285: a leading `$` is removed (with the remainder
re-stripped) before a line is recorded as a command candidate. -/
def processDollar (line : List Char) : List Char :=
  if startsWithChar '$' line then stripL (line.drop 1) else line

/-- The stripped non-empty lines of the response, in order (`cmd_ai.py`
lines 245-252: blank lines are skipped). -/
def strippedLinesOf (l : List Char) : List (List Char) :=
  ((splitNl l).map stripL).filter (fun x => !x.isEmpty)

/-- `command_lines` of `cmd_ai.py` (lines 277-286): the strong-signal
lines, `$`-processed, in original order. -/
def commandLinesOf (l : List Char) : List (List Char) :=
  ((strippedLinesOf l).filter isCommandLine).map processDollar

/-- `candidate_lines` of `cmd_ai.py` (lines 254-275): the stripped
non-empty lines not classified as explanations, in original order. -/
def candidateLinesOf (l : List Char) : List (List Char) :=
  (strippedLinesOf l).filter (fun x => !(isExplanationLine x))

/-- The line-by-line fallback of `CommandAI.extract_command` (`cmd_ai.py`
lines 244-302): first strong-signal line, else first non-explanation
line, else first non-empty stripped line, else the whole stripped
response.  The guarded Python indexings `command_lines[0]` and
`candidate_lines[0]` are modelled by `List.head?`. -/
def lineFallbackA (l : List Char) : Option (List Char) :=
  if !(commandLinesOf l).isEmpty then (commandLinesOf l).head?
  else if !(candidateLinesOf l).isEmpty then (candidateLinesOf l).head?
  else
    match (strippedLinesOf l).head? with
    | some x => some x
    | none => some (stripL l)

/-- `CommandAI.extract_command` of `cmd_ai.py` lines 223-302, on the
character list of the response. -/
def extractA_core (l : List Char) : Option (List Char) :=
  if containsL fenceL l then
    match reFindBash l with
    | some g => some (stripL g)
    | none =>
      match reFindGeneric l with
      | some g => some (stripL g)
      | none => lineFallbackA l
  else lineFallbackA l

/-- `lines` of `build/lib/cmd_ai.py` line 397: the raw lines whose strip
is non-empty. -/
def linesB (l : List Char) : List (List Char) :=
  (splitNl l).filter (fun raw => !(stripL raw).isEmpty)

/-- `extracted_text` of `build/lib/cmd_ai.py` lines 398-411: the first
kept line, stripped (the single-line and multi-line branches coincide),
else the whole stripped response.  The guarded indexing `lines[0]` is
modelled by `List.head?`. -/
def extractedB (l : List Char) : Option (List Char) :=
  if (linesB l).length == 1 then ((linesB l).head?).map stripL
  else if !(linesB l).isEmpty then ((linesB l).head?).map stripL
  else some (stripL l)

/-- The fallback of `CLAI.extract_command` (`build/lib/cmd_ai.py` lines
396-417): `extracted_text`, then a leading `$` is removed together with
the whitespace following it (lines 413-417). -/
def lineFallbackB (l : List Char) : Option (List Char) :=
  (extractedB l).map (fun e => if startsWithChar '$' e then lstripL (e.drop 1) else e)

/-- `CLAI.extract_command` of `build/lib/cmd_ai.py` lines 375-417, on the
character list of the response. -/
def extractB_core (l : List Char) : Option (List Char) :=
  match reFindBashCI l with
  | some g => some (stripL g)
  | none =>
    match reFindGeneric l with
    | some g => some (stripL g)
    | none => lineFallbackB l

namespace CommandAI

/-- `CommandAI.extract_command` (`cmd_ai.py` lines 223-302) as a function
on strings; `none` would mark a failing (unguarded) list indexing. -/
def extract_command (s : String) : Option String :=
  (extractA_core s.data).map String.mk

end CommandAI

namespace CLAI

/-- `CLAI.extract_command` (`build/lib/cmd_ai.py` lines 375-417) as a
function on strings; `none` would mark a failing list indexing. -/
def extract_command (s : String) : Option String :=
  (extractB_core s.data).map String.mk

end CLAI

/-! Helper lemmas: occurrence tests and the regex front end. -/

/-- A list that starts with `pat` contains `pat`. -/
lemma containsL_of_isPrefixOf {pat l : List Char} (h : pat.isPrefixOf l = true) :
    containsL pat l = true := by
  cases l with
  | nil =>
    have h1 : pat <+: ([] : List Char) := List.isPrefixOf_iff_prefix.mp h
    have h2 : pat = [] := List.prefix_nil.mp h1
    simp [containsL, h2]
  | cons c cs => simp [containsL, h]

/-- Occurrence is preserved by extending the list on the left. -/
lemma containsL_cons {pat : List Char} {c : Char} {cs : List Char}
    (h : containsL pat cs = true) : containsL pat (c :: cs) = true := by
  simp [containsL, h]

/-- A successful bash-block match implies the response contains a fence
(the guard `'¨``¨' in response` of `cmd_ai.py` line 226 holds). -/
lemma reFindBash_fence {l g : List Char} (h : reFindBash l = some g) :
    containsL fenceL l = true := by
  induction l with
  | nil => simp [reFindBash] at h
  | cons c cs ih =>
    by_cases hb : bashOpenL.isPrefixOf (c :: cs) = true
    · have hf : fenceL.isPrefixOf (c :: cs) = true := by
        have h1 : fenceL <+: bashOpenL := by decide
        have h2 : bashOpenL <+: (c :: cs) := List.isPrefixOf_iff_prefix.mp hb
        exact List.isPrefixOf_iff_prefix.mpr (h1.trans h2)
      simp [containsL, hf]
    · simp only [reFindBash, if_neg hb] at h
      exact containsL_cons (ih h)

/-- `splitNl` never returns the empty list (Python `split` always yields
at least one piece). -/
lemma splitNl_ne_nil (l : List Char) : splitNl l ≠ [] := by
  induction l with
  | nil => simp [splitNl]
  | cons c cs ih =>
    simp only [splitNl]
    split
    · simp
    · split
      · simp
      · simp

/-- Structure of `splitNl`: the first piece is a prefix of the input and
every piece is a contiguous part of the input. -/
lemma splitNl_struct (l : List Char) :
    (∀ h t, splitNl l = h :: t → h <+: l) ∧ (∀ x ∈ splitNl l, x <:+: l) := by
  induction l with
  | nil =>
    constructor
    · intro h t he
      simp only [splitNl] at he
      obtain ⟨rfl, -⟩ := List.cons.inj he.symm
      exact List.nil_prefix
    · intro x hx
      simp only [splitNl, List.mem_singleton] at hx
      simp [hx]
  | cons c cs ih =>
    by_cases hc : (c == '\n') = true
    · constructor
      · intro h t he
        simp only [splitNl, if_pos hc] at he
        obtain ⟨rfl, -⟩ := List.cons.inj he.symm
        exact List.nil_prefix
      · intro x hx
        simp only [splitNl, if_pos hc, List.mem_cons] at hx
        rcases hx with rfl | hx
        · exact List.nil_infix
        · exact List.infix_cons (ih.2 x hx)
    · cases hsc : splitNl cs with
      | nil => exact absurd hsc (splitNl_ne_nil cs)
      | cons h0 t0 =>
        have hpre : h0 <+: cs := ih.1 h0 t0 hsc
        constructor
        · intro h t he
          simp only [splitNl, if_neg hc, hsc] at he
          obtain ⟨rfl, -⟩ := List.cons.inj he.symm
          obtain ⟨r, hr⟩ := hpre
          exact ⟨r, by rw [List.cons_append, hr]⟩
        · intro x hx
          simp only [splitNl, if_neg hc, hsc, List.mem_cons] at hx
          rcases hx with rfl | hx
          · obtain ⟨r, hr⟩ := hpre
            exact List.IsPrefix.isInfix ⟨r, by rw [List.cons_append, hr]⟩
          · exact List.infix_cons (ih.2 x (hsc ▸ List.mem_cons_of_mem h0 hx))

/-- Every piece of `splitNl` is a contiguous part of the input. -/
lemma mem_splitNl_sub {l x : List Char} (hx : x ∈ splitNl l) : x <:+: l :=
  (splitNl_struct l).2 x hx

/-- The text before the first fence is a prefix of the scanned text. -/
lemma splitFence_before : ∀ {l p q : List Char},
    splitFence l = some (p, q) → p <+: l := by
  intro l
  induction l with
  | nil => intro p q h; simp [splitFence] at h
  | cons c cs ih =>
    intro p q h
    by_cases hf : fenceL.isPrefixOf (c :: cs) = true
    · simp only [splitFence, if_pos hf, Option.some.injEq, Prod.mk.injEq] at h
      obtain ⟨rfl, -⟩ := h
      exact List.nil_prefix
    · simp only [splitFence, if_neg hf] at h
      cases hs : splitFence cs with
      | none => rw [hs] at h; simp at h
      | some pq =>
        obtain ⟨p0, q0⟩ := pq
        rw [hs] at h
        simp only [Option.some.injEq, Prod.mk.injEq] at h
        obtain ⟨rfl, -⟩ := h
        obtain ⟨r, hr⟩ := ih hs
        exact ⟨r, by rw [List.cons_append, hr]⟩

/-- The candidate content produced after an opening fence literal is a
contiguous part of the text that follows the literal. -/
lemma innerAfterOpen_sub {l p : List Char} (h : innerAfterOpen l = some p) :
    p <:+: l := by
  unfold innerAfterOpen at h
  cases hs : splitFence (l.dropWhile isSpc) with
  | none => rw [hs] at h; simp at h
  | some pq =>
    obtain ⟨p0, q0⟩ := pq
    rw [hs] at h
    simp only [Option.some.injEq] at h
    subst h
    exact (splitFence_before hs).isInfix.trans
      (List.dropWhile_suffix isSpc).isInfix

/-- `stripL` only removes characters at the two ends. -/
lemma stripL_sub (l : List Char) : stripL l <:+: l := by
  unfold stripL
  have h1 : l.dropWhile isSpc <:+ l := List.dropWhile_suffix isSpc
  have h2 : (l.dropWhile isSpc).reverse.dropWhile isSpc <:+
      (l.dropWhile isSpc).reverse := List.dropWhile_suffix isSpc
  have h3 := List.reverse_prefix.mpr h2
  rw [List.reverse_reverse] at h3
  exact h3.isInfix.trans h1.isInfix

/-- A bash-block match content is a contiguous part of the response. -/
lemma reFindBash_sub : ∀ {l g : List Char}, reFindBash l = some g → g <:+: l := by
  intro l
  induction l with
  | nil => intro g h; simp [reFindBash] at h
  | cons c cs ih =>
    intro g h
    by_cases hb : bashOpenL.isPrefixOf (c :: cs) = true
    · simp only [reFindBash, if_pos hb] at h
      cases hi : innerAfterOpen ((c :: cs).drop 7) with
      | none => rw [hi] at h; exact List.infix_cons (ih h)
      | some p =>
        rw [hi] at h
        simp only [Option.some.injEq] at h
        subst h
        exact (innerAfterOpen_sub hi).trans (List.drop_suffix 7 (c :: cs)).isInfix
    · simp only [reFindBash, if_neg hb] at h
      exact List.infix_cons (ih h)

/-- A case-insensitive bash-block match content is a contiguous part of
the response. -/
lemma reFindBashCI_sub : ∀ {l g : List Char}, reFindBashCI l = some g → g <:+: l := by
  intro l
  induction l with
  | nil => intro g h; simp [reFindBashCI] at h
  | cons c cs ih =>
    intro g h
    by_cases hb : ciBashOpen (c :: cs) = true
    · simp only [reFindBashCI, if_pos hb] at h
      cases hi : innerAfterOpen ((c :: cs).drop 7) with
      | none => rw [hi] at h; exact List.infix_cons (ih h)
      | some p =>
        rw [hi] at h
        simp only [Option.some.injEq] at h
        subst h
        exact (innerAfterOpen_sub hi).trans (List.drop_suffix 7 (c :: cs)).isInfix
    · simp only [reFindBashCI, if_neg hb] at h
      exact List.infix_cons (ih h)

/-- A generic-block match content is a contiguous part of the response. -/
lemma reFindGeneric_sub : ∀ {l g : List Char}, reFindGeneric l = some g → g <:+: l := by
  intro l
  induction l with
  | nil => intro g h; simp [reFindGeneric] at h
  | cons c cs ih =>
    intro g h
    by_cases hb : fenceL.isPrefixOf (c :: cs) = true
    · simp only [reFindGeneric, if_pos hb] at h
      cases hi : innerAfterOpen ((c :: cs).drop 3) with
      | none => rw [hi] at h; exact List.infix_cons (ih h)
      | some p =>
        rw [hi] at h
        simp only [Option.some.injEq] at h
        subst h
        exact (innerAfterOpen_sub hi).trans (List.drop_suffix 3 (c :: cs)).isInfix
    · simp only [reFindGeneric, if_neg hb] at h
      exact List.infix_cons (ih h)

/-- The head given by `List.head?` is a member. -/
lemma mem_of_headOpt {α : Type} {xs : List α} {a : α} (h : xs.head? = some a) :
    a ∈ xs := by
  cases xs with
  | nil => simp at h
  | cons b t =>
    simp only [List.head?_cons, Option.some.injEq] at h
    subst h
    exact List.mem_cons_self b t

/-- `$`-processing keeps a contiguous part of the line. -/
lemma processDollar_sub (x : List Char) : processDollar x <:+: x := by
  unfold processDollar
  split
  · exact (stripL_sub _).trans (List.drop_suffix 1 x).isInfix
  · exact List.infix_refl x

/-- Every stripped non-empty line is a contiguous part of the response. -/
lemma mem_strippedLines_sub {l x : List Char} (hx : x ∈ strippedLinesOf l) :
    x <:+: l := by
  unfold strippedLinesOf at hx
  rw [List.mem_filter] at hx
  obtain ⟨hm, -⟩ := hx
  rw [List.mem_map] at hm
  obtain ⟨raw, hraw, rfl⟩ := hm
  exact (stripL_sub raw).trans (mem_splitNl_sub hraw)

/-- The heuristic fallback of revision A returns a contiguous part of the
response. -/
lemma lineFallbackA_sub {l m : List Char} (h : lineFallbackA l = some m) :
    m <:+: l := by
  unfold lineFallbackA at h
  split at h
  · have hm : m ∈ commandLinesOf l := mem_of_headOpt h
    unfold commandLinesOf at hm
    rw [List.mem_map] at hm
    obtain ⟨x, hx, rfl⟩ := hm
    rw [List.mem_filter] at hx
    exact (processDollar_sub x).trans (mem_strippedLines_sub hx.1)
  · split at h
    · have hm : m ∈ candidateLinesOf l := mem_of_headOpt h
      unfold candidateLinesOf at hm
      rw [List.mem_filter] at hm
      exact mem_strippedLines_sub hm.1
    · cases hs : (strippedLinesOf l).head? with
      | some x =>
        rw [hs] at h
        simp only [Option.some.injEq] at h
        subst h
        exact mem_strippedLines_sub (mem_of_headOpt hs)
      | none =>
        rw [hs] at h
        simp only [Option.some.injEq] at h
        subst h
        exact stripL_sub l

/-- Every line kept by revision B's filter is a line of the response. -/
lemma mem_linesB_sub {l x : List Char} (hx : x ∈ linesB l) : x <:+: l := by
  unfold linesB at hx
  rw [List.mem_filter] at hx
  exact mem_splitNl_sub hx.1

/-- `extracted_text` of revision B is a contiguous part of the response. -/
lemma extractedB_sub {l e : List Char} (h : extractedB l = some e) : e <:+: l := by
  unfold extractedB at h
  split at h
  · simp only [Option.map_eq_some'] at h
    obtain ⟨raw, hraw, rfl⟩ := h
    exact (stripL_sub raw).trans (mem_linesB_sub (mem_of_headOpt hraw))
  · split at h
    · simp only [Option.map_eq_some'] at h
      obtain ⟨raw, hraw, rfl⟩ := h
      exact (stripL_sub raw).trans (mem_linesB_sub (mem_of_headOpt hraw))
    · simp only [Option.some.injEq] at h
      subst h
      exact stripL_sub l

/-- The fallback of revision B returns a contiguous part of the response. -/
lemma lineFallbackB_sub {l m : List Char} (h : lineFallbackB l = some m) :
    m <:+: l := by
  unfold lineFallbackB at h
  simp only [Option.map_eq_some'] at h
  obtain ⟨e, he, hm⟩ := h
  have hesub : e <:+: l := extractedB_sub he
  by_cases hd : startsWithChar '$' e = true
  · rw [if_pos hd] at hm
    subst hm
    exact ((List.dropWhile_suffix isSpc).trans (List.drop_suffix 1 e)).isInfix.trans hesub
  · rw [if_neg hd] at hm
    subst hm
    exact hesub

/-- Revision A returns a contiguous part of the response. -/
lemma extractA_core_sub {l m : List Char} (h : extractA_core l = some m) :
    m <:+: l := by
  unfold extractA_core at h
  split at h
  · cases hb : reFindBash l with
    | some g =>
      rw [hb] at h
      simp only [Option.some.injEq] at h
      subst h
      exact (stripL_sub g).trans (reFindBash_sub hb)
    | none =>
      rw [hb] at h
      cases hg : reFindGeneric l with
      | some g =>
        rw [hg] at h
        simp only [Option.some.injEq] at h
        subst h
        exact (stripL_sub g).trans (reFindGeneric_sub hg)
      | none =>
        rw [hg] at h
        exact lineFallbackA_sub h
  · exact lineFallbackA_sub h

/-- Revision B returns a contiguous part of the response. -/
lemma extractB_core_sub {l m : List Char} (h : extractB_core l = some m) :
    m <:+: l := by
  unfold extractB_core at h
  cases hb : reFindBashCI l with
  | some g =>
    rw [hb] at h
    simp only [Option.some.injEq] at h
    subst h
    exact (stripL_sub g).trans (reFindBashCI_sub hb)
  | none =>
    rw [hb] at h
    cases hg : reFindGeneric l with
    | some g =>
      rw [hg] at h
      simp only [Option.some.injEq] at h
      subst h
      exact (stripL_sub g).trans (reFindGeneric_sub hg)
    | none =>
      rw [hg] at h
      exact lineFallbackB_sub h

/-- The heuristic fallback of revision A always returns a value: the
emptiness guards of `cmd_ai.py` lines 289-294 protect the indexings. -/
lemma lineFallbackA_isSome (l : List Char) : (lineFallbackA l).isSome = true := by
  unfold lineFallbackA
  split
  · next hc =>
    cases hcl : commandLinesOf l with
    | nil => rw [hcl] at hc; simp at hc
    | cons a t => simp
  · split
    · next hc =>
      cases hcl : candidateLinesOf l with
      | nil => rw [hcl] at hc; simp at hc
      | cons a t => simp
    · cases hs : (strippedLinesOf l).head? with
      | some x => simp
      | none => simp

/-- `extracted_text` of revision B always exists: the guards of
`build/lib/cmd_ai.py` lines 400-402 protect the indexing `lines[0]`. -/
lemma extractedB_isSome (l : List Char) : (extractedB l).isSome = true := by
  unfold extractedB
  cases hl : linesB l with
  | nil => simp [hl]
  | cons a t => simp [hl]

/-- The fallback of revision B always returns a value. -/
lemma lineFallbackB_isSome (l : List Char) : (lineFallbackB l).isSome = true := by
  unfold lineFallbackB
  have hi := extractedB_isSome l
  cases he : extractedB l with
  | none => rw [he] at hi; simp at hi
  | some e => simp

/-- Revision A never fails. -/
lemma extractA_core_isSome (l : List Char) : (extractA_core l).isSome = true := by
  unfold extractA_core
  split
  · cases reFindBash l with
    | some g => simp
    | none =>
      cases reFindGeneric l with
      | some g => simp
      | none => exact lineFallbackA_isSome l
  · exact lineFallbackA_isSome l

/-- Revision B never fails. -/
lemma extractB_core_isSome (l : List Char) : (extractB_core l).isSome = true := by
  unfold extractB_core
  cases reFindBashCI l with
  | some g => simp
  | none =>
    cases reFindGeneric l with
    | some g => simp
    | none => exact lineFallbackB_isSome l

/-- A successful bash-pattern match decides revision A's result: the
generic pattern and the fallback are never consulted. -/
lemma extractA_of_bash {s : String} {g : List Char} (h : reFindBash s.data = some g) :
    CommandAI.extract_command s = some (String.mk (stripL g)) := by
  have hf := reFindBash_fence h
  simp [CommandAI.extract_command, extractA_core, hf, h]

/-- A successful bash-pattern match decides revision B's result. -/
lemma extractB_of_bash {s : String} {g : List Char} (h : reFindBashCI s.data = some g) :
    CLAI.extract_command s = some (String.mk (stripL g)) := by
  simp [CLAI.extract_command, extractB_core, h]

/-- With no fence in the response, revision A returns the head of the
strong-signal command lines whenever there is one. -/
lemma extractA_of_commandLines {s : String} {c : List Char} {cs : List (List Char)}
    (hf : containsL fenceL s.data = false) (hc : commandLinesOf s.data = c :: cs) :
    CommandAI.extract_command s = some (String.mk c) := by
  simp [CommandAI.extract_command, extractA_core, hf, lineFallbackA, hc]

/-- `stripL` removes only whitespace, and only at the two ends: the input
decomposes as whitespace, the stripped value, whitespace. -/
lemma stripL_decomp (l : List Char) : ∃ u v, l = u ++ stripL l ++ v ∧
    (∀ c ∈ u, isSpc c = true) ∧ (∀ c ∈ v, isSpc c = true) := by
  refine ⟨l.takeWhile isSpc, ((l.dropWhile isSpc).reverse.takeWhile isSpc).reverse,
    ?_, ?_, ?_⟩
  · have h2 : l.dropWhile isSpc
        = stripL l ++ ((l.dropWhile isSpc).reverse.takeWhile isSpc).reverse := by
      have h3 : (l.dropWhile isSpc).reverse
          = (l.dropWhile isSpc).reverse.takeWhile isSpc
            ++ (l.dropWhile isSpc).reverse.dropWhile isSpc :=
        (List.takeWhile_append_dropWhile isSpc ((l.dropWhile isSpc).reverse)).symm
      calc l.dropWhile isSpc
          = (l.dropWhile isSpc).reverse.reverse := by rw [List.reverse_reverse]
        _ = ((l.dropWhile isSpc).reverse.takeWhile isSpc
              ++ (l.dropWhile isSpc).reverse.dropWhile isSpc).reverse := by
            rw [← h3]
        _ = ((l.dropWhile isSpc).reverse.dropWhile isSpc).reverse
              ++ ((l.dropWhile isSpc).reverse.takeWhile isSpc).reverse := by
            rw [List.reverse_append]
        _ = stripL l ++ ((l.dropWhile isSpc).reverse.takeWhile isSpc).reverse := rfl
    rw [List.append_assoc, ← h2]
    exact (List.takeWhile_append_dropWhile isSpc l).symm
  · intro c hc
    exact List.mem_takeWhile_imp hc
  · intro c hc
    rw [List.mem_reverse] at hc
    exact List.mem_takeWhile_imp hc

/-! The claims. -/

/-- C1: for every response in which the bash-block pattern matches (a
bash-tagged fenced code block exists), both revisions return the trimmed
inner content of the first bash-tagged block, preferring it to any
untagged fenced block even when the untagged block occurs earlier; in
particular extract of "blah\n```bash\ngit status\n```\nblah" is
"git status". -/
theorem C1_bash_block_priority :
    (∀ (s : String) (g : List Char), reFindBash s.data = some g →
      CommandAI.extract_command s = some (String.mk (stripL g))) ∧
    (∀ (s : String) (g : List Char), reFindBashCI s.data = some g →
      CLAI.extract_command s = some (String.mk (stripL g))) ∧
    CommandAI.extract_command ("blah\n```bash\ngit status\n```\nblah")
      = some ("git status") ∧
    CLAI.extract_command ("blah\n```bash\ngit status\n```\nblah")
      = some ("git status") ∧
    CommandAI.extract_command ("```\necho untagged\n```\ntext\n```bash\ngit status\n```")
      = some ("git status") ∧
    CLAI.extract_command ("```\necho untagged\n```\ntext\n```bash\ngit status\n```")
      = some ("git status") := by
  refine ⟨fun s g h => extractA_of_bash h, fun s g h => extractB_of_bash h,
    ?_, ?_, ?_, ?_⟩ <;> decide

/-- C1 witness: the general statement applied to a concrete response. -/
theorem C1_bash_block_priority_witness :
    CommandAI.extract_command ("blah\n```bash\ngit status\n```\nblah")
      = some (String.mk (stripL (("git status\n").data))) :=
  C1_bash_block_priority.1 ("blah\n```bash\ngit status\n```\nblah")
    (("git status\n").data) (by decide)

/-- C2: contrary to the claim (and to the repository's own test
`test_extract_command_dollar_prefix` in `test_cmd_ai.py`), a leading `$`
inside a fenced code block is NOT stripped by either revision: both
return "$ docker ps" on "```bash\n$ docker ps\n```".  The `$`-stripping
does apply on the no-block fallback paths of both revisions. -/
theorem C2_dollar_strip_behaviour :
    CommandAI.extract_command ("```bash\n$ docker ps\n```") = some ("$ docker ps") ∧
    CLAI.extract_command ("```bash\n$ docker ps\n```") = some ("$ docker ps") ∧
    CommandAI.extract_command ("$ echo hello") = some ("echo hello") ∧
    CLAI.extract_command ("$ echo hello") = some ("echo hello") ∧
    CommandAI.extract_command ("$echo hello") = some ("echo hello") ∧
    CLAI.extract_command ("$echo hello") = some ("echo hello") := by
  refine ⟨?_, ?_, ?_, ?_, ?_, ?_⟩ <;> decide

/-- C3 counterexample: the CLAI revision (cited by the claim) has no
explanation-skipping heuristic; on the claim's example it returns the
explanatory first line, not "ls -la". -/
theorem C3_counterexample :
    CLAI.extract_command
        ("To list files, use the command:\nls -la\nThis shows all files.")
      = some ("To list files, use the command:") ∧
    CLAI.extract_command
        ("To list files, use the command:\nls -la\nThis shows all files.")
      ≠ some ("ls -la") := by
  constructor <;> decide

/-- C3 (amended): with no fenced code block, CommandAI.extract_command
(src/cmd_ai.py) returns the first strong-command-signal line in original
order, skipping earlier explanatory lines — on the example it returns
"ls -la"; the CLAI revision (build/lib) instead returns the first
non-empty line. -/
theorem C3_strong_signal_fallback :
    (∀ (s : String), containsL fenceL s.data = false →
      ∀ (c : List Char) (cs : List (List Char)),
        commandLinesOf s.data = c :: cs →
        CommandAI.extract_command s = some (String.mk c)) ∧
    CommandAI.extract_command
        ("To list files, use the command:\nls -la\nThis shows all files.")
      = some ("ls -la") ∧
    CLAI.extract_command
        ("To list files, use the command:\nls -la\nThis shows all files.")
      = some ("To list files, use the command:") := by
  refine ⟨fun s hf c cs hc => extractA_of_commandLines hf hc, ?_, ?_⟩ <;> decide

/-- C3 witness: the general statement applied to the claim's example. -/
theorem C3_strong_signal_fallback_witness :
    CommandAI.extract_command
        ("To list files, use the command:\nls -la\nThis shows all files.")
      = some (String.mk (("ls -la").data)) :=
  C3_strong_signal_fallback.1
    ("To list files, use the command:\nls -la\nThis shows all files.")
    (by decide) (("ls -la").data) [] (by decide)

/-- C4 counterexample: CommandAI.extract_command (cited by the claim)
matches the bash tag case-sensitively: an uppercase-tagged block is
treated as a generic block and the tag ends up in the result. -/
theorem C4_counterexample :
    CommandAI.extract_command ("```Bash\ngit status\n```") = some ("Bash\ngit status") ∧
    CommandAI.extract_command ("```Bash\ngit status\n```") ≠ some ("git status") := by
  constructor <;> decide

/-- C4 (amended): only the CLAI revision (build/lib, `re.IGNORECASE`)
matches the bash tag case-insensitively, with the same priority as a
lowercase tag; CommandAI (src/cmd_ai.py) matches only lowercase "bash". -/
theorem C4_case_insensitive_tag :
    CLAI.extract_command ("```Bash\ngit status\n```") = some ("git status") ∧
    CLAI.extract_command ("```BASH\ngit status\n```") = some ("git status") ∧
    CLAI.extract_command ("```bAsH\ngit status\n```") = some ("git status") ∧
    CLAI.extract_command ("```\necho untagged\n```\ntext\n```BASH\ngit status\n```")
      = some ("git status") ∧
    CommandAI.extract_command ("```Bash\ngit status\n```")
      = some ("Bash\ngit status") := by
  refine ⟨?_, ?_, ?_, ?_, ?_⟩ <;> decide

/-- C5: both revisions of extract are total — on every input string the
result is a defined string; every potentially failing list indexing of
the Python source is reached only under its non-emptiness guard. -/
theorem C5_totality (s : String) :
    (CommandAI.extract_command s).isSome = true ∧
    (CLAI.extract_command s).isSome = true := by
  constructor
  · unfold CommandAI.extract_command
    cases h : extractA_core s.data with
    | none =>
      have hi := extractA_core_isSome s.data
      rw [h] at hi
      simp at hi
    | some m => simp
  · unfold CLAI.extract_command
    cases h : extractB_core s.data with
    | none =>
      have hi := extractB_core_isSome s.data
      rw [h] at hi
      simp at hi
    | some m => simp

/-- C6: on empty or whitespace-only input both revisions return the
trimmed input, i.e. the empty string. -/
theorem C6_empty_input :
    CommandAI.extract_command ("") = some ("") ∧
    CLAI.extract_command ("") = some ("") ∧
    CommandAI.extract_command ("   ") = some ("") ∧
    CLAI.extract_command ("   ") = some ("") := by
  refine ⟨?_, ?_, ?_, ?_⟩ <;> decide

/-- C7: fenced content is returned with only leading and trailing
whitespace trimmed — the input block content decomposes as whitespace ++
result ++ whitespace, so internal newlines are preserved; in particular
extract of "```bash\nls -l\ndate\n```" is "ls -l\ndate". -/
theorem C7_multiline_preserved :
    (∀ (s : String) (g : List Char), reFindBash s.data = some g →
      CommandAI.extract_command s = some (String.mk (stripL g)) ∧
      ∃ u v, g = u ++ stripL g ++ v ∧ (∀ c ∈ u, isSpc c = true) ∧
        (∀ c ∈ v, isSpc c = true)) ∧
    CommandAI.extract_command ("```bash\nls -l\ndate\n```") = some ("ls -l\ndate") ∧
    CLAI.extract_command ("```bash\nls -l\ndate\n```") = some ("ls -l\ndate") := by
  refine ⟨fun s g h => ⟨extractA_of_bash h, stripL_decomp g⟩, ?_, ?_⟩ <;> decide

/-- C7 witness: the general statement applied to the claim's example. -/
theorem C7_multiline_preserved_witness :
    CommandAI.extract_command ("```bash\nls -l\ndate\n```")
      = some (String.mk (stripL (("ls -l\ndate\n").data))) ∧
    ∃ u v, ("ls -l\ndate\n").data = u ++ stripL (("ls -l\ndate\n").data) ++ v ∧
      (∀ c ∈ u, isSpc c = true) ∧ (∀ c ∈ v, isSpc c = true) :=
  C7_multiline_preserved.1 ("```bash\nls -l\ndate\n```")
    (("ls -l\ndate\n").data) (by decide)

/-- C8: a plain single-line command is returned unchanged by both
revisions. -/
theorem C8_plain_command_identity :
    CommandAI.extract_command ("ls -la") = some ("ls -la") ∧
    CLAI.extract_command ("ls -la") = some ("ls -la") := by
  constructor <;> decide

/-- C9 counterexample: on the canonical fenced `$`-content input the two
revisions agree, and neither strips the `$` — refuting the claimed
"one strips it, the other returns it unstripped" divergence. -/
theorem C9_counterexample :
    CommandAI.extract_command ("```bash\n$ docker ps\n```")
      = CLAI.extract_command ("```bash\n$ docker ps\n```") ∧
    CommandAI.extract_command ("```bash\n$ docker ps\n```")
      = some ("$ docker ps") ∧
    CLAI.extract_command ("```bash\n$ docker ps\n```")
      = some ("$ docker ps") := by
  refine ⟨?_, ?_, ?_⟩ <;> decide

/-- C9 (amended): the two revisions are indeed not extensionally equal,
but the witnessing inputs are elsewhere: they differ on an
uppercase-tagged bash block and on the multi-line no-block fallback, not
on fenced `$`-content. -/
theorem C9_revisions_differ :
    CommandAI.extract_command ("```Bash\ngit status\n```")
      ≠ CLAI.extract_command ("```Bash\ngit status\n```") ∧
    CommandAI.extract_command
        ("To list files, use the command:\nls -la\nThis shows all files.")
      ≠ CLAI.extract_command
        ("To list files, use the command:\nls -la\nThis shows all files.") := by
  constructor <;> decide

/-- C10: whatever either revision returns is a contiguous substring of
the input response — the extractor never fabricates, concatenates or
reorders text. -/
theorem C10_substring (s r : String) :
    (CommandAI.extract_command s = some r → r.data <:+: s.data) ∧
    (CLAI.extract_command s = some r → r.data <:+: s.data) := by
  constructor
  · intro h
    unfold CommandAI.extract_command at h
    simp only [Option.map_eq_some'] at h
    obtain ⟨m, hm, rfl⟩ := h
    exact extractA_core_sub hm
  · intro h
    unfold CLAI.extract_command at h
    simp only [Option.map_eq_some'] at h
    obtain ⟨m, hm, rfl⟩ := h
    exact extractB_core_sub hm

/-- C10 witness: the substring property at a concrete extraction. -/
theorem C10_substring_witness :
    ("git status").data <:+: ("blah\n```bash\ngit status\n```\nblah").data :=
  (C10_substring ("blah\n```bash\ngit status\n```\nblah") ("git status")).1 (by decide)
